import Mathlib

/-!
Verification of `dotpptx` (src/dotpptx/dotpptx.py and src/dotpptx/__main__.py).

The repository converts a packaged presentation document (a zip archive of
part files) into an exploded directory tree (`unpptx_file`) and reassembles
such a tree into an archive (`dopptx_folder`), with a thin click CLI on top.

Shallow embedding conventions:
* A zip package is its list of member entries: relative path and raw content
  (`Package`).  Contents are modelled as `String` (opaque byte sequences).
* A directory's file contents are an association list from relative path to
  content (`FS`).  `setFile` is the filesystem write (create or overwrite),
  `getFile` the read.
* A recursive walk (`pathlib.Path.glob("**/*")`) is a list of `Entry`
  (leaf files with content, and directories).  `pathlib`'s selector returns
  an empty iteration when the globbed path does not exist or is not a
  directory, so a walk of such a path is modelled by `Option`/`globWalk`.
* Python functions that can raise are modelled with `Except`/`Option`.
-/

set_option maxRecDepth 10000

/-- A zip package: the list of member entries (relative path, raw content). -/
abbrev Package := List (String × String)

/-- Contents of a directory on disk: association list, relative path to file
content. -/
abbrev FS := List (String × String)

/-- Filesystem write: overwrite the entry at path `p` if present, otherwise
create it. -/
def setFile : FS → String → String → FS
  | [], p, c => [(p, c)]
  | e :: t, p, c => if e.1 == p then (p, c) :: t else e :: setFile t p c

/-- Filesystem read at path `q`. -/
def getFile : FS → String → Option String
  | [], _ => none
  | e :: t, q => if e.1 == q then some e.2 else getFile t q

/-- `zipfile.ZipFile.extractall`: write every member of the package into the
destination, in member order, overwriting colliding paths. -/
def extractAll (P : Package) (fs : FS) : FS :=
  P.foldl (fun a m => setFile a m.1 m.2) fs

/-- The content the archive holds for path `q` after all members are written:
the last member whose path is `q`, if any. -/
def lastWrite (P : Package) (q : String) : Option String :=
  P.foldl (fun acc m => if m.1 == q then some m.2 else acc) none

/-- One item produced by the recursive walk `folder.glob("**/*")`: either a
leaf file (with its content) or a directory, identified by its path relative
to the walked root. -/
inductive Entry where
  | file : String → String → Entry
  | dir : String → Entry

def Entry.path : Entry → String
  | .file p _ => p
  | .dir p => p

def Entry.isFile : Entry → Bool
  | .file _ _ => true
  | .dir _ => false

/-- The member a walk item contributes to the archive: files are written with
their relative path, directories are skipped (`if file.is_dir(): continue`). -/
def fileOf : Entry → Option (String × String)
  | .file p c => some (p, c)
  | .dir _ => none

/-- The archive members written by the `for file in glob("**/*")` loop of
`dopptx_folder`: every non-directory walk item, in walk order. -/
def zipMembers (walk : List Entry) : Package :=
  walk.filterMap fileOf

/-- `pathlib` globbing over a path that is missing or not a directory yields
an empty iteration; `some walk` is the walk of an existing directory. -/
def globWalk : Option (List Entry) → List Entry
  | none => []
  | some w => w

/-- Python suffix test `s.endswith(t)` (also the semantics of the glob
patterns `*_pptx`, `**/*.xml`, `**/*.rels` used by the code: a relative path
matches exactly when it ends with the literal suffix). -/
def endsWithStr (s t : String) : Bool :=
  s.data.reverse.take t.data.length == t.data.reverse

/-- `pathlib.PurePath.stem`: the final path component without its last
suffix.  `name.rfind(".")` keeps the whole name when the last dot is at
position `0`, absent, or in final position. -/
def lastDotIdxAux : List Char → Nat → Option Nat
  | [], _ => none
  | c :: t, i =>
    match lastDotIdxAux t (i + 1) with
    | some j => some j
    | none => if c == '.' then some i else none

def pathStem (name : String) : String :=
  let l := name.data
  match lastDotIdxAux l 0 with
  | some i => if 0 < i ∧ i < l.length - 1 then ⟨l.take i⟩ else name
  | none => name

/-- The Python slice `stem[:-5]`: drop the last five characters (empty result
when the string is shorter). -/
def dropLast5 (s : String) : String :=
  ⟨s.data.take (s.data.length - 5)⟩

/-- `deck_name = pptx_exploded_folder.stem[:-5]` in `dopptx_folder`. -/
def deckName (folderName : String) : String :=
  dropLast5 (pathStem folderName)

/-- The output package path chosen by `dopptx_folder`:
`Path(pptx_folder) / f"{deck_name}.pptx"`, here just the file name. -/
def pptxFileName (folderName : String) : String :=
  deckName folderName ++ ".pptx"

/-- `dopptx_folder`, result side: open the zip for writing and add one member
per walk file.  The body contains no existence check and no raise for a
missing or non-directory tree, so the translation has no error outcome: the
walk of such a tree is empty and an archive with zero members results. -/
def dopptx_folder (tree : Option (List Entry)) : Except String Package :=
  .ok (zipMembers (globWalk tree))

/-- Filesystem events performed by `dopptx_folder`, in order: the output file
is opened for writing (created or truncated) by `zipfile.ZipFile(pptx_file,
"w")` first, then each walk file is read when `zip_ref.write` adds it. -/
inductive FsEvent where
  | openWrite : String → FsEvent
  | readEntry : String → FsEvent
deriving DecidableEq

def dopptx_folderTrace (folderName : String) (walk : List Entry) : List FsEvent :=
  FsEvent.openWrite (pptxFileName folderName) ::
    walk.filterMap (fun e => (fileOf e).map (fun m => FsEvent.readEntry m.1))

/-! ### CLI layer (`src/dotpptx/__main__.py`) -/

/-- The click option names a command declares.  The `unpptx` command carries
only `@click.argument("path")` and declares no `click.option` at all; the
`dopptx` command declares exactly `--delete-original`. -/
def unpptxCliOptions : List String := []

def dopptxCliOptions : List String := ["--delete-original"]

/-- Click's treatment of a command line: each `--`-token must be a declared
option of the command, otherwise the invocation fails with a usage error
("no such option") before the command body runs; remaining tokens are the
positional arguments. -/
def parseCliArgs (declared : List String) : List String → Except String (List String × List String)
  | [] => .ok ([], [])
  | a :: t =>
    if a.data.take 2 == ['-', '-'] && a.data.length > 2 then
      if declared.contains a then
        (parseCliArgs declared t).map (fun r => (a :: r.1, r.2))
      else
        .error ("no such option: " ++ a)
    else
      (parseCliArgs declared t).map (fun r => (r.1, a :: r.2))

/-- One immediate child of the directory given to the `dopptx` command, as
seen by `pptx_folder.glob("*_pptx")`: its name, whether it is a directory,
and (when a directory) its recursive walk. -/
structure Child where
  name : String
  isDirectory : Bool
  walk : List Entry

/-- The walk `dopptx_folder` performs inside a child: `glob("**/*")` yields
nothing when the globbed path is not a directory. -/
def childWalk (c : Child) : List Entry :=
  if c.isDirectory then c.walk else []

/-- The `dopptx` command body: if the given folder's name ends with `_pptx`,
pack that single tree; otherwise pack every immediate child matching the glob
pattern `*_pptx`.  The result lists the output packages produced, as
(file name, members) in production order. -/
def dopptxCmd (folderName : String) (children : List Child) (selfWalk : List Entry) :
    List (String × Package) :=
  if endsWithStr folderName "_pptx" then
    [(pptxFileName folderName, zipMembers selfWalk)]
  else
    (children.filter (fun c => endsWithStr c.name "_pptx")).map
      (fun c => (pptxFileName c.name, zipMembers (childWalk c)))

/-! ### XML documents and `xml.dom.minidom` serialization

`prettify_files` reads a matched file, parses it with
`xml.dom.minidom.parseString` and rewrites it with `dom.toprettyxml()`.
`Xml` is the document tree (elements with ordered attributes and children,
and text nodes); `writexml` is minidom's writer, whose compact instance
(`indent = addindent = newl = ""`) is `Document.toxml` and whose
`toprettyxml` instance uses `indent="\t"`, `newl="\n"` plus the XML
declaration header. -/

mutual
inductive Xml where
  | elem : String → List (String × String) → XmlList → Xml
  | text : String → Xml

inductive XmlList where
  | nil : XmlList
  | cons : Xml → XmlList → XmlList
end

/-- minidom's `_write_data` escaping, applied to text and attribute values:
the sequential replacements of `&`, `<`, `"`, `>` (whose results never feed
each other) amount to this per-character expansion. -/
def escapeChar (c : Char) : List Char :=
  if c == '&' then "&amp;".data
  else if c == '<' then "&lt;".data
  else if c == '"' then "&quot;".data
  else if c == '>' then "&gt;".data
  else [c]

def escapeData (s : String) : String :=
  ⟨(s.data.map escapeChar).flatten⟩

/-- The ` name="value"` attribute rendering of `Element.writexml`. -/
def attrsString (attrs : List (String × String)) : String :=
  attrs.foldl (fun acc a => acc ++ " " ++ a.1 ++ "=\"" ++ escapeData a.2 ++ "\"") ""

mutual
/-- `Element.writexml` / `Text.writexml` with explicit `indent`, `addindent`
and `newl`.  A childless element renders as `<tag/>`; an element whose only
child is a text node renders it inline (`writexml(writer, "", "", "")` on the
child); otherwise every child is rendered on its own indented line.  A text
node renders as `_write_data(indent + data + newl)`. -/
def writexml : Xml → String → String → String → String
  | .text s, ind, _, newl => escapeData (ind ++ s ++ newl)
  | .elem n attrs .nil, ind, _, newl =>
      ind ++ "<" ++ n ++ attrsString attrs ++ "/>" ++ newl
  | .elem n attrs (.cons (.text s) .nil), ind, _, newl =>
      ind ++ "<" ++ n ++ attrsString attrs ++ ">" ++ escapeData s ++ "</" ++ n ++ ">" ++ newl
  | .elem n attrs cs, ind, add, newl =>
      ind ++ "<" ++ n ++ attrsString attrs ++ ">" ++ newl ++
        writelist cs (ind ++ add) add newl ++ ind ++ "</" ++ n ++ ">" ++ newl

def writelist : XmlList → String → String → String → String
  | .nil, _, _, _ => ""
  | .cons x t, ind, add, newl => writexml x ind add newl ++ writelist t ind add newl
end

/-- Compact serialization (minidom with empty indentation): the canonical
form of an extracted part file before prettifying. -/
def serializeXml (x : Xml) : String :=
  writexml x "" "" ""

/-- The declaration header `Document.writexml` emits. -/
def xmlHeader : String := "<?xml version=\"1.0\" ?>"

/-- The body of `dom.toprettyxml()`: the root element written with
`indent="\t"` and `newl="\n"`. -/
def prettyBody (x : Xml) : String :=
  writexml x "" "\t" "\n"

/-- `dom.toprettyxml()`: declaration header, newline, pretty-printed root. -/
def toprettyxml (x : Xml) : String :=
  xmlHeader ++ "\n" ++ prettyBody x

/-- Delete every whitespace character of a string (used to state that two
renderings differ only in whitespace layout). -/
def stripWs (s : String) : String :=
  ⟨s.data.filter (fun c => !c.isWhitespace)⟩

/-! ### An executable model of `xml.dom.minidom.parseString`

The parser accepts the well-formed documents the repository manipulates:
an optional declaration, elements with double-quoted attributes, character
data with the predefined entities.  Character data is kept verbatim
(including whitespace-only runs between elements, as expat reports them);
whitespace outside the document element is discarded, as minidom's `Document`
node cannot hold text.  Any malformed input yields `none`
(`xml.parsers.expat.ExpatError`). -/

def isNameChar (c : Char) : Bool :=
  c.isAlphanum || c == '_' || c == ':' || c == '-' || c == '.'

def dropWsChars (l : List Char) : List Char :=
  l.dropWhile (fun c => c.isWhitespace)

/-- Decode one predefined entity reference after the `&`. -/
def readEntity : List Char → Option (Char × List Char)
  | 'a' :: 'm' :: 'p' :: ';' :: t => some ('&', t)
  | 'l' :: 't' :: ';' :: t => some ('<', t)
  | 'g' :: 't' :: ';' :: t => some ('>', t)
  | 'q' :: 'u' :: 'o' :: 't' :: ';' :: t => some ('"', t)
  | _ => none

/-- Read character data until the stop character (or the end of input),
decoding entity references. -/
def readText (stop : Char) : Nat → List Char → Option (List Char × List Char)
  | _, [] => some ([], [])
  | 0, _ => none
  | fuel + 1, c :: t =>
    if c == stop then some ([], c :: t)
    else if c == '&' then
      (readEntity t).bind fun r =>
        (readText stop fuel r.2).map fun p => (r.1 :: p.1, p.2)
    else
      (readText stop fuel t).map fun p => (c :: p.1, p.2)

/-- Read the attribute list of a start tag, up to (not including) the closing
`>` or `/>`. -/
def readAttrs : Nat → List Char → Option (List (String × String) × List Char)
  | 0, _ => none
  | fuel + 1, l =>
    let l' := dropWsChars l
    match l' with
    | '/' :: r => some ([], '/' :: r)
    | '>' :: r => some ([], '>' :: r)
    | _ =>
      let name := l'.takeWhile isNameChar
      if name.isEmpty then none
      else
        match dropWsChars (l'.drop name.length) with
        | '=' :: r1 =>
          match dropWsChars r1 with
          | '"' :: r2 =>
            (readText '"' fuel r2).bind fun v =>
              match v.2 with
              | '"' :: r3 =>
                (readAttrs fuel r3).map fun rest =>
                  ((String.mk name, String.mk v.1) :: rest.1, rest.2)
              | _ => none
          | _ => none
        | _ => none

/-- Parse a sequence of sibling nodes, stopping at an end tag or the end of
input. -/
def parseNodes : Nat → List Char → Option (XmlList × List Char)
  | 0, _ => none
  | fuel + 1, l =>
    match l with
    | [] => some (.nil, [])
    | '<' :: '/' :: r => some (.nil, '<' :: '/' :: r)
    | '<' :: r =>
      let name := r.takeWhile isNameChar
      if name.isEmpty then none
      else
        (readAttrs fuel (r.drop name.length)).bind fun ar =>
          match ar.2 with
          | '/' :: '>' :: r2 =>
            (parseNodes fuel r2).map fun sib =>
              (.cons (.elem (String.mk name) ar.1 .nil) sib.1, sib.2)
          | '>' :: r2 =>
            (parseNodes fuel r2).bind fun ch =>
              match ch.2 with
              | '<' :: '/' :: r3 =>
                let cname := r3.takeWhile isNameChar
                if cname == name then
                  match dropWsChars (r3.drop cname.length) with
                  | '>' :: r4 =>
                    (parseNodes fuel r4).map fun sib =>
                      (.cons (.elem (String.mk name) ar.1 ch.1) sib.1, sib.2)
                  | _ => none
                else none
              | _ => none
          | _ => none
    | _ =>
      (readText '<' fuel l).bind fun tx =>
        if tx.1.isEmpty then none
        else
          (parseNodes fuel tx.2).map fun sib =>
            (.cons (.text (String.mk tx.1)) sib.1, sib.2)

/-- Skip an `<?xml ... ?>` declaration if present. -/
def skipDeclAux : List Char → List Char
  | '?' :: '>' :: r => r
  | _ :: r => skipDeclAux r
  | [] => []

def skipDecl : List Char → List Char
  | '<' :: '?' :: r => skipDeclAux r
  | l => l

/-- Keep the document element of the top-level node sequence, ignoring
whitespace-only text outside it (minidom drops it); anything else at top
level is an error. -/
def docElement : XmlList → Option Xml → Option Xml
  | .nil, acc => acc
  | .cons (.text s) t, acc =>
    if stripWs s == "" then docElement t acc else none
  | .cons (.elem n a c) t, acc =>
    match acc with
    | none => docElement t (some (.elem n a c))
    | some _ => none

/-- `xml.dom.minidom.parseString`, returning the document element. -/
def parseXml (s : String) : Option Xml :=
  let l := dropWsChars (skipDecl (dropWsChars s.data))
  (parseNodes (2 * s.data.length + 8) l).bind fun r =>
    if r.2.isEmpty then docElement r.1 none else none

/-! ### `unpptx_file` and its prettify pass -/

/-- The body of the `prettify_files` loop for one file: read, parse, pretty
print.  `none` models the uncaught `ExpatError` on malformed content. -/
def prettifyStr (s : String) : Option String :=
  (parseXml s).map toprettyxml

/-- `prettify_files(pattern)`: rewrite every file of the output folder whose
relative path matches the glob pattern (i.e. ends with the given suffix),
leaving other files alone.  The Python loop aborts on the first parse
failure (leaving earlier files rewritten); the model returns `none` in that
case and a fully rewritten tree otherwise, which agrees with the code on
every successful run. -/
def prettifyFiles (suffix : String) (fs : FS) : Option FS :=
  fs.mapM fun m =>
    if endsWithStr m.1 suffix then (prettifyStr m.2).map fun t => (m.1, t)
    else some m

/-- `unpptx_file`: extract every member of the package into the output
folder, then, when `pretty` is set, run the prettify pass over `**/*.xml`
and then over `**/*.rels`.  `fs` is the prior content of the output folder
(extraction neither clears it nor is it required to be empty). -/
def unpptx_file (P : Package) (pretty : Bool) (fs : FS) : Option FS :=
  let fs1 := extractAll P fs
  if pretty then (prettifyFiles ".xml" fs1).bind (prettifyFiles ".rels")
  else some fs1

/-! ### Lemmas about the filesystem model -/

theorem getFile_setFile (fs : FS) (p c q) :
    getFile (setFile fs p c) q = if p == q then some c else getFile fs q := by
  induction fs with
  | nil => simp [setFile, getFile]
  | cons e t ih =>
    simp only [setFile]
    cases hb : e.1 == p with
    | true =>
      simp only [if_true, getFile]
      cases hq : p == q with
      | true => simp
      | false =>
        have he : (e.1 == q) = false := by
          rw [eq_of_beq hb]; exact hq
        simp [he]
    | false =>
      simp only [if_false, getFile, ih]
      cases hq2 : e.1 == q with
      | true =>
        have hpq : (p == q) = false := by
          apply beq_eq_false_iff_ne.mpr
          intro h
          subst h
          simp [hb] at hq2
        simp [hpq]
      | false => rfl

/-- The value `lastWrite`-style folds compute is the last matching write if
one exists, the initial value otherwise. -/
theorem foldl_lastWrite_init (q : String) (l : List (String × String)) (v : Option String) :
    l.foldl (fun acc m => if m.1 == q then some m.2 else acc) v =
      match l.foldl (fun acc m => if m.1 == q then some m.2 else acc) none with
      | some c => some c
      | none => v := by
  induction l generalizing v with
  | nil => simp
  | cons m t ih =>
    simp only [List.foldl_cons]
    rw [ih, ih (if m.1 == q then some m.2 else none)]
    rcases h : t.foldl (fun acc m => if m.1 == q then some m.2 else acc) none with _ | c
    · rw [h]
      cases hm : m.1 == q <;> simp
    · rw [h]

/-- Pointwise description of extraction: a path holds the last member written
to it, and is untouched if no member has that path. -/
theorem getFile_extractAll (P : Package) (fs : FS) (q : String) :
    getFile (extractAll P fs) q =
      match lastWrite P q with
      | some c => some c
      | none => getFile fs q := by
  induction P generalizing fs with
  | nil => simp [extractAll, lastWrite]
  | cons m t ih =>
    simp only [extractAll, lastWrite, List.foldl_cons] at *
    rw [ih, foldl_lastWrite_init q t (if m.1 == q then some m.2 else none)]
    rcases h : t.foldl (fun acc m => if m.1 == q then some m.2 else acc) none with _ | c
    · rw [h]
      simp only [getFile_setFile]
      cases hm : m.1 == q <;> simp
    · rw [h]

theorem setFile_of_not_mem (fs : FS) (p c) (h : p ∉ fs.map Prod.fst) :
    setFile fs p c = fs ++ [(p, c)] := by
  induction fs with
  | nil => simp [setFile]
  | cons e t ih =>
    simp only [List.map_cons, List.mem_cons] at h
    push_neg at h
    have : ¬ e.1 = p := fun hh => h.1 hh.symm
    simp [setFile, this, ih h.2]

/-- Extracting members with pairwise distinct paths into a folder that holds
none of them appends exactly the member list. -/
theorem extractAll_of_nodup (P : Package) (fs : FS)
    (hnd : (P.map Prod.fst).Nodup)
    (hdisj : ∀ x ∈ P.map Prod.fst, x ∉ fs.map Prod.fst) :
    extractAll P fs = fs ++ P := by
  induction P generalizing fs with
  | nil => simp [extractAll]
  | cons m t ih =>
    simp only [List.map_cons, List.nodup_cons] at hnd
    have hm : m.1 ∉ fs.map Prod.fst := hdisj m.1 (by simp)
    have step : setFile fs m.1 m.2 = fs ++ [m] := by
      simpa using setFile_of_not_mem fs m.1 m.2 hm
    have hdisj' : ∀ x ∈ t.map Prod.fst, x ∉ (fs ++ [m]).map Prod.fst := by
      intro x hx
      simp only [List.map_append, List.mem_append, List.map_cons, List.map_nil,
        List.mem_singleton]
      push_neg
      refine ⟨hdisj x (by simp [hx]), ?_⟩
      intro hxm
      exact hnd.1 (hxm ▸ hx)
    calc extractAll (m :: t) fs = extractAll t (setFile fs m.1 m.2) := by
          simp [extractAll]
      _ = extractAll t (fs ++ [m]) := by rw [step]
      _ = (fs ++ [m]) ++ t := ih (fs ++ [m]) hnd.2 hdisj'
      _ = fs ++ (m :: t) := by simp

/-! ### Lemmas about path names -/

theorem str_data_append (s t : String) : (s ++ t).data = s.data ++ t.data := by
  cases s; cases t; rfl

theorem lastDotIdxAux_of_no_dot (l : List Char) (i : Nat) (h : '.' ∉ l) :
    lastDotIdxAux l i = none := by
  induction l generalizing i with
  | nil => rfl
  | cons c t ih =>
    simp only [List.mem_cons] at h
    push_neg at h
    have hc : (c == '.') = false := beq_eq_false_iff_ne.mpr (fun hh => h.1 hh.symm)
    simp [lastDotIdxAux, ih (i + 1) h.2, hc]

theorem pathStem_of_no_dot (name : String) (h : '.' ∉ name.data) :
    pathStem name = name := by
  simp [pathStem, lastDotIdxAux_of_no_dot name.data 0 h]

theorem dropLast5_append_pptx (pre : String) :
    dropLast5 (pre ++ "_pptx") = pre := by
  have hdata : (pre ++ "_pptx").data = pre.data ++ "_pptx".data := str_data_append _ _
  have hlen : ("_pptx".data).length = 5 := rfl
  have htake : (pre.data ++ "_pptx".data).take ((pre.data ++ "_pptx".data).length - 5) =
      pre.data := by
    rw [List.length_append, hlen, Nat.add_sub_cancel]
    exact List.take_left pre.data "_pptx".data
  show String.mk ((pre ++ "_pptx").data.take ((pre ++ "_pptx").data.length - 5)) = pre
  rw [hdata, htake]

/-! ### Lemmas about minidom rendering: pretty and compact output differ only
in whitespace -/

theorem stripWs_append (a b : String) : stripWs (a ++ b) = stripWs a ++ stripWs b := by
  apply String.ext
  simp [stripWs, String.data_append, List.filter_append]

theorem stripWs_empty : stripWs "" = "" := rfl

theorem escapeData_empty : escapeData "" = "" := rfl

theorem escapeChar_of_ws (c : Char) (h : c.isWhitespace = true) : escapeChar c = [c] := by
  have h1 : (c == '&') = false := by
    apply beq_eq_false_iff_ne.mpr; rintro rfl; exact absurd h (by decide)
  have h2 : (c == '<') = false := by
    apply beq_eq_false_iff_ne.mpr; rintro rfl; exact absurd h (by decide)
  have h3 : (c == '"') = false := by
    apply beq_eq_false_iff_ne.mpr; rintro rfl; exact absurd h (by decide)
  have h4 : (c == '>') = false := by
    apply beq_eq_false_iff_ne.mpr; rintro rfl; exact absurd h (by decide)
  simp [escapeChar, h1, h2, h3, h4]

theorem flatten_escape_of_ws (l : List Char) (h : ∀ c ∈ l, c.isWhitespace = true) :
    (l.map escapeChar).flatten = l := by
  induction l with
  | nil => rfl
  | cons c t ih =>
    simp [escapeChar_of_ws c (h c (by simp)), ih (fun d hd => h d (by simp [hd]))]

theorem escapeData_of_ws (s : String) (h : stripWs s = "") : escapeData s = s := by
  have hd : s.data.filter (fun c => !c.isWhitespace) = [] := congrArg String.data h
  have hl : ∀ c ∈ s.data, c.isWhitespace = true := by
    intro c hc
    have := List.filter_eq_nil_iff.mp hd c hc
    simpa using this
  exact String.ext (flatten_escape_of_ws s.data hl)

theorem escapeData_append (a b : String) :
    escapeData (a ++ b) = escapeData a ++ escapeData b := by
  apply String.ext
  simp [escapeData, String.data_append]

mutual
/-- Pretty rendering with whitespace-only indentation strings differs from
the compact rendering only by whitespace. -/
theorem stripWs_writexml (x : Xml) (ind add newl : String)
    (hi : stripWs ind = "") (ha : stripWs add = "") (hn : stripWs newl = "") :
    stripWs (writexml x ind add newl) = stripWs (writexml x "" "" "") := by
  cases x with
  | text s =>
    show stripWs (escapeData (ind ++ s ++ newl)) = stripWs (escapeData ("" ++ s ++ ""))
    simp [escapeData_append, stripWs_append, escapeData_of_ws ind hi,
      escapeData_of_ws newl hn, hi, hn, escapeData_empty, stripWs_empty,
      String.empty_append, String.append_empty]
  | elem n attrs cs =>
    cases cs with
    | nil =>
      show stripWs (ind ++ "<" ++ n ++ attrsString attrs ++ "/>" ++ newl) =
        stripWs ("" ++ "<" ++ n ++ attrsString attrs ++ "/>" ++ "")
      simp [stripWs_append, hi, hn, stripWs_empty, String.empty_append,
        String.append_empty]
    | cons hd tl =>
      cases hd with
      | text s =>
        cases tl with
        | nil =>
          show stripWs (ind ++ "<" ++ n ++ attrsString attrs ++ ">" ++ escapeData s ++
              "</" ++ n ++ ">" ++ newl) =
            stripWs ("" ++ "<" ++ n ++ attrsString attrs ++ ">" ++ escapeData s ++
              "</" ++ n ++ ">" ++ "")
          simp [stripWs_append, hi, hn, stripWs_empty, String.empty_append,
            String.append_empty]
        | cons y t =>
          have hia : stripWs (ind ++ add) = "" := by
            rw [stripWs_append, hi, ha]; exact String.append_empty ""
          have h1 := stripWs_writelist (XmlList.cons (Xml.text s) (XmlList.cons y t))
            (ind ++ add) add newl hia ha hn
          have h2 := stripWs_writelist (XmlList.cons (Xml.text s) (XmlList.cons y t))
            ("" ++ "") "" "" (by rw [String.empty_append]; exact stripWs_empty) rfl rfl
          show stripWs (ind ++ "<" ++ n ++ attrsString attrs ++ ">" ++ newl ++
              writelist (XmlList.cons (Xml.text s) (XmlList.cons y t)) (ind ++ add) add newl ++
              ind ++ "</" ++ n ++ ">" ++ newl) =
            stripWs ("" ++ "<" ++ n ++ attrsString attrs ++ ">" ++ "" ++
              writelist (XmlList.cons (Xml.text s) (XmlList.cons y t)) ("" ++ "") "" "" ++
              "" ++ "</" ++ n ++ ">" ++ "")
          simp [stripWs_append, hi, hn, h1, h2, stripWs_empty, String.empty_append,
            String.append_empty]
      | elem n2 a2 c2 =>
        have hia : stripWs (ind ++ add) = "" := by
          rw [stripWs_append, hi, ha]; exact String.append_empty ""
        have h1 := stripWs_writelist (XmlList.cons (Xml.elem n2 a2 c2) tl)
          (ind ++ add) add newl hia ha hn
        have h2 := stripWs_writelist (XmlList.cons (Xml.elem n2 a2 c2) tl)
          ("" ++ "") "" "" (by rw [String.empty_append]; exact stripWs_empty) rfl rfl
        show stripWs (ind ++ "<" ++ n ++ attrsString attrs ++ ">" ++ newl ++
            writelist (XmlList.cons (Xml.elem n2 a2 c2) tl) (ind ++ add) add newl ++
            ind ++ "</" ++ n ++ ">" ++ newl) =
          stripWs ("" ++ "<" ++ n ++ attrsString attrs ++ ">" ++ "" ++
            writelist (XmlList.cons (Xml.elem n2 a2 c2) tl) ("" ++ "") "" "" ++
            "" ++ "</" ++ n ++ ">" ++ "")
        simp [stripWs_append, hi, hn, h1, h2, stripWs_empty, String.empty_append,
          String.append_empty]

theorem stripWs_writelist (l : XmlList) (ind add newl : String)
    (hi : stripWs ind = "") (ha : stripWs add = "") (hn : stripWs newl = "") :
    stripWs (writelist l ind add newl) = stripWs (writelist l "" "" "") := by
  cases l with
  | nil => rfl
  | cons x t =>
    show stripWs (writexml x ind add newl ++ writelist t ind add newl) =
      stripWs (writexml x "" "" "" ++ writelist t "" "" "")
    rw [stripWs_append, stripWs_append, stripWs_writexml x ind add newl hi ha hn,
      stripWs_writelist t ind add newl hi ha hn]
end

/-! ### Claims -/

/-- C1: unpacking a package (pretty-print off) into a fresh folder and
packing the walked tree gives back a package with the same member path set
and, member by member, the same content.  `entries` is the recursive walk of
the unpacked tree: its leaf files are exactly the files extraction wrote. -/
theorem c1_unpack_pack_roundtrip (P : Package) (entries : List Entry)
    (hnd : (P.map Prod.fst).Nodup)
    (hfiles : unpptx_file P false [] = some (zipMembers entries)) :
    (zipMembers entries).map Prod.fst = P.map Prod.fst ∧ zipMembers entries = P := by
  have hext : extractAll P [] = P := by
    simpa using extractAll_of_nodup P [] hnd (by simp)
  have hfl : some (extractAll P []) = some (zipMembers entries) := hfiles
  rw [hext] at hfl
  have h2 : zipMembers entries = P := (Option.some_inj.mp hfl).symm
  exact ⟨by rw [h2], h2⟩

theorem c1_unpack_pack_roundtrip_witness :
    ((([("[Content_Types].xml", "a"), ("ppt/presentation.xml", "b")] : Package).map
        Prod.fst).Nodup) ∧
    unpptx_file [("[Content_Types].xml", "a"), ("ppt/presentation.xml", "b")] false [] =
      some (zipMembers [Entry.dir "ppt", Entry.file "[Content_Types].xml" "a",
        Entry.file "ppt/presentation.xml" "b"]) ∧
    ((zipMembers [Entry.dir "ppt", Entry.file "[Content_Types].xml" "a",
        Entry.file "ppt/presentation.xml" "b"]).map Prod.fst =
      ([("[Content_Types].xml", "a"), ("ppt/presentation.xml", "b")] : Package).map Prod.fst ∧
     zipMembers [Entry.dir "ppt", Entry.file "[Content_Types].xml" "a",
        Entry.file "ppt/presentation.xml" "b"] =
      [("[Content_Types].xml", "a"), ("ppt/presentation.xml", "b")]) :=
  ⟨by decide, rfl,
    c1_unpack_pack_roundtrip _ [Entry.dir "ppt", Entry.file "[Content_Types].xml" "a",
      Entry.file "ppt/presentation.xml" "b"] (by decide) rfl⟩

/-- C2: the `unpptx` command of `__main__.py` declares no `--pretty` option,
so click rejects `unpptx --pretty <path>` with a usage error before any
extraction; the `--delete-original` flag of `dopptx`, which is declared, is
accepted by the same parsing model. -/
theorem c2_cli_rejects_pretty_flag :
    parseCliArgs unpptxCliOptions ["--pretty", "slides-1.pptx"] =
      Except.error "no such option: --pretty" ∧
    parseCliArgs dopptxCliOptions ["--delete-original", "deck_pptx"] =
      Except.ok (["--delete-original"], ["deck_pptx"]) :=
  ⟨rfl, rfl⟩

/-- C3 counterexample: `dopptx_folder` applied to a tree path that does not
exist (or is not a directory) raises nothing: it returns a package — the
empty one — rather than any error. -/
theorem c3_counterexample_no_error_on_missing_tree :
    dopptx_folder none = Except.ok [] ∧ ∀ e, dopptx_folder none ≠ Except.error e :=
  ⟨rfl, fun e h => by simp [dopptx_folder] at h⟩

/-- C3 amended: `dopptx_folder` has no failure path for a missing or
non-directory exploded-tree path; every invocation produces a package, and a
missing tree produces the package with zero members.  (Path existence is
checked only by the CLI's argument validation.) -/
theorem c3_amended_missing_tree_gives_empty_package :
    dopptx_folder none = Except.ok [] ∧ ∀ t, ∃ pkg, dopptx_folder t = Except.ok pkg :=
  ⟨rfl, fun t => ⟨zipMembers (globWalk t), rfl⟩⟩

/-- C4 counterexample: for the tree name `slides.v2_pptx`, the code's
`stem[:-5]` computation yields the output name `s.pptx`, not the claimed
`slides.v2.pptx`: `Path.stem` already removes `.v2_pptx` as the name's last
suffix before the slice drops five more characters. -/
theorem c4_counterexample_dot_in_name :
    pptxFileName "slides.v2_pptx" = "s.pptx" ∧ "s.pptx" ≠ "slides.v2.pptx" := by
  constructor
  · rfl
  · decide

/-- C4 amended: for a tree whose base name ends in `_pptx` and contains no
dot (so that `Path.stem` is the whole name), the output package file name is
the base name with the trailing `_pptx` removed and `.pptx` appended. -/
theorem c4_amended_output_name (pre : String) (h : '.' ∉ pre.data) :
    pptxFileName (pre ++ "_pptx") = pre ++ ".pptx" := by
  have hnd : '.' ∉ (pre ++ "_pptx").data := by
    rw [str_data_append]
    intro hmem
    rcases List.mem_append.mp hmem with h1 | h2
    · exact h h1
    · exact absurd h2 (by decide)
  show dropLast5 (pathStem (pre ++ "_pptx")) ++ ".pptx" = pre ++ ".pptx"
  rw [pathStem_of_no_dot _ hnd, dropLast5_append_pptx]

theorem c4_amended_output_name_witness :
    '.' ∉ ("slides-1" : String).data ∧
    pptxFileName ("slides-1" ++ "_pptx") = "slides-1" ++ ".pptx" :=
  ⟨by decide, c4_amended_output_name "slides-1" (by decide)⟩

/-- C5: the members of the archive `dopptx_folder` writes are exactly the
leaf files of the recursive walk, path for path; walk items that are
directories contribute no member at all. -/
theorem c5_members_are_leaf_files (entries : List Entry) :
    (zipMembers entries).map Prod.fst = (entries.filter Entry.isFile).map Entry.path ∧
    zipMembers (entries.filter (fun e => !e.isFile)) = [] := by
  constructor
  · induction entries with
    | nil => rfl
    | cons e t ih =>
      cases e with
      | file p c => simpa [zipMembers, fileOf, Entry.isFile, Entry.path] using ih
      | dir p => simpa [zipMembers, fileOf, Entry.isFile] using ih
  · induction entries with
    | nil => rfl
    | cons e t ih =>
      cases e with
      | file p c => simpa [Entry.isFile] using ih
      | dir p => simpa [zipMembers, fileOf, Entry.isFile] using ih

/-- C6: the prettify pass rewrites each matched file (here: a `*.xml` path
whose content is the compact serialization of a document `x`) to
`toprettyxml x`, which is the explicit markup declaration header followed by
the indented body, and that body differs from the original content only in
whitespace: deleting all whitespace characters from both yields equal
strings, so element and attribute content is preserved. -/
theorem c6_prettify_adds_header_changes_only_whitespace (x : Xml) (p : String)
    (hm : endsWithStr p ".xml" = true)
    (hp : parseXml (serializeXml x) = some x) :
    prettifyFiles ".xml" [(p, serializeXml x)] = some [(p, toprettyxml x)] ∧
    toprettyxml x = xmlHeader ++ "\n" ++ prettyBody x ∧
    stripWs (prettyBody x) = stripWs (serializeXml x) := by
  refine ⟨?_, rfl, ?_⟩
  · simp [prettifyFiles, List.mapM, List.mapM.loop, hm, prettifyStr, hp]
  · exact stripWs_writexml x "" "\t" "\n" rfl rfl rfl

theorem c6_prettify_adds_header_changes_only_whitespace_witness :
    endsWithStr "ppt/slides/slide1.xml" ".xml" = true ∧
    parseXml (serializeXml (Xml.elem "p" [("a", "1")]
      (XmlList.cons (Xml.text "hi") XmlList.nil))) =
      some (Xml.elem "p" [("a", "1")] (XmlList.cons (Xml.text "hi") XmlList.nil)) ∧
    (prettifyFiles ".xml" [("ppt/slides/slide1.xml",
        serializeXml (Xml.elem "p" [("a", "1")] (XmlList.cons (Xml.text "hi") XmlList.nil)))] =
      some [("ppt/slides/slide1.xml",
        toprettyxml (Xml.elem "p" [("a", "1")] (XmlList.cons (Xml.text "hi") XmlList.nil)))] ∧
     toprettyxml (Xml.elem "p" [("a", "1")] (XmlList.cons (Xml.text "hi") XmlList.nil)) =
      xmlHeader ++ "\n" ++
        prettyBody (Xml.elem "p" [("a", "1")] (XmlList.cons (Xml.text "hi") XmlList.nil)) ∧
     stripWs (prettyBody (Xml.elem "p" [("a", "1")]
        (XmlList.cons (Xml.text "hi") XmlList.nil))) =
      stripWs (serializeXml (Xml.elem "p" [("a", "1")]
        (XmlList.cons (Xml.text "hi") XmlList.nil)))) :=
  ⟨rfl, rfl, c6_prettify_adds_header_changes_only_whitespace
    (Xml.elem "p" [("a", "1")] (XmlList.cons (Xml.text "hi") XmlList.nil))
    "ppt/slides/slide1.xml" rfl rfl⟩

/-- C7 counterexample: with the pretty flag on, unpacking twice differs from
unpacking once when the output folder already holds a non-member `*.xml`
file: the prettify pass reformats it on each run and `toprettyxml` is not
idempotent (re-parsing its output yields extra whitespace text nodes). -/
theorem c7_counterexample_not_idempotent :
    (unpptx_file [("ppt/a.txt", "d")] true [("stray.xml", "<r>x<b/></r>")]).bind
        (unpptx_file [("ppt/a.txt", "d")] true) ≠
      unpptx_file [("ppt/a.txt", "d")] true [("stray.xml", "<r>x<b/></r>")] := by
  decide

/-- C7 amended: with the pretty flag off, unpacking the same package twice to
the same destination leaves every path of the destination with the same
content (and hence the same file set) as unpacking it once. -/
theorem c7_amended_idempotent_without_pretty (P : Package) (S : FS) :
    (unpptx_file P false S).bind (unpptx_file P false) =
      some (extractAll P (extractAll P S)) ∧
    ∀ q, getFile (extractAll P (extractAll P S)) q = getFile (extractAll P S) q := by
  refine ⟨rfl, fun q => ?_⟩
  rw [getFile_extractAll P (extractAll P S) q]
  rcases h : lastWrite P q with _ | c
  · rfl
  · rw [getFile_extractAll P S q, h]

/-- C8 counterexample: extraction does not clear the destination: a prior
file at a path that is not a member of the package is still present, with its
old content, after `unpptx_file` completes. -/
theorem c8_counterexample_prior_file_survives :
    unpptx_file [("a.txt", "x")] false [("keep.txt", "z")] =
      some [("keep.txt", "z"), ("a.txt", "x")] ∧
    "keep.txt" ∉ ([("a.txt", "x")] : Package).map Prod.fst ∧
    getFile [("keep.txt", "z"), ("a.txt", "x")] "keep.txt" = some "z" := by
  refine ⟨rfl, by decide, rfl⟩

/-- C8 amended: unpack writes every member into the output folder, silently
overwriting colliding paths (a path holds the last member written to it), but
prior files at non-member paths are left in place, not removed. -/
theorem c8_amended_overwrite_and_frame (P : Package) (S : FS) (q : String) :
    unpptx_file P false S = some (extractAll P S) ∧
    getFile (extractAll P S) q =
      match lastWrite P q with
      | some c => some c
      | none => getFile S q :=
  ⟨rfl, getFile_extractAll P S q⟩

/-- C9 counterexample: on a directory named `deck` whose only entry is a
regular file (not a subdirectory) named `x_pptx`, the `dopptx` command still
produces an output package `x.pptx` (with zero members), because
`glob("*_pptx")` matches non-directory children too. -/
theorem c9_counterexample_file_child :
    dopptxCmd "deck" [⟨"x_pptx", false, []⟩] [] = [("x.pptx", [])] ∧
    ([(⟨"x_pptx", false, []⟩ : Child)].filter
      (fun c => c.isDirectory && endsWithStr c.name "_pptx")) = [] :=
  ⟨rfl, rfl⟩

/-- C9 amended: when the given directory's base name does not end in `_pptx`,
`dopptx` packs exactly the immediate children (directories or not) whose
names match `*_pptx`, one package per matching child, written inside the
given directory; with no matching children, no package is produced. -/
theorem c9_amended_packs_matching_children (folderName : String) (children : List Child)
    (selfWalk : List Entry) (h : endsWithStr folderName "_pptx" = false) :
    dopptxCmd folderName children selfWalk =
      (children.filter (fun c => endsWithStr c.name "_pptx")).map
        (fun c => (pptxFileName c.name, zipMembers (childWalk c))) ∧
    ((children.filter (fun c => endsWithStr c.name "_pptx")) = [] →
      dopptxCmd folderName children selfWalk = []) := by
  have h1 : dopptxCmd folderName children selfWalk =
      (children.filter (fun c => endsWithStr c.name "_pptx")).map
        (fun c => (pptxFileName c.name, zipMembers (childWalk c))) := by
    simp [dopptxCmd, h]
  exact ⟨h1, fun h2 => by rw [h1, h2]; rfl⟩

theorem c9_amended_packs_matching_children_witness :
    endsWithStr "deck" "_pptx" = false ∧
    (dopptxCmd "deck" [] [] =
      (([] : List Child).filter (fun c => endsWithStr c.name "_pptx")).map
        (fun c => (pptxFileName c.name, zipMembers (childWalk c))) ∧
     ((([] : List Child).filter (fun c => endsWithStr c.name "_pptx")) = [] →
      dopptxCmd "deck" [] [] = [])) :=
  ⟨rfl, c9_amended_packs_matching_children "deck" [] [] rfl⟩

/-- C10: `dopptx_folder` on a tree whose walk yields no files — in
particular a path that does not exist or is not a directory, whose glob is
empty — still succeeds and produces the archive with zero members; and its
first filesystem action is opening the output file for writing (creating or
truncating it), before any tree entry is read. -/
theorem c10_empty_tree_still_packs (n : String) (t : Option (List Entry))
    (h : zipMembers (globWalk t) = []) :
    dopptx_folder t = Except.ok [] ∧
    (dopptx_folderTrace n (globWalk t)).head? =
      some (FsEvent.openWrite (pptxFileName n)) := by
  constructor
  · simp [dopptx_folder, h]
  · rfl

theorem c10_empty_tree_still_packs_witness :
    zipMembers (globWalk none) = [] ∧
    (dopptx_folder none = Except.ok [] ∧
     (dopptx_folderTrace "nonexistent_pptx" (globWalk none)).head? =
       some (FsEvent.openWrite (pptxFileName "nonexistent_pptx"))) :=
  ⟨rfl, c10_empty_tree_still_packs "nonexistent_pptx" none rfl⟩
